import Mathlib

/-!
Verification of the keyword-filter core of the Alix keyword-search app
(`src/app.py`): column detection, table combination via `pd.concat`,
keyword-mask computation, projection, and the filter-button pipeline.

Conventions of the shallow embedding:
* A pandas cell is `Cell`: a string, a missing value (NaN), or some other
  (non-string) value carried by its Python `str()` rendering.
* `pandas.Series.astype(str)` is `pyStr`; note it renders NaN as the text
  "nan" (pandas renders the float NaN that `read_excel` stores for a blank
  cell as `"nan"`).
* `Series.str.contains(pat, case=False, na=False)` with a pattern built by
  `re.escape` / `"|".join` is modelled by a tiny regex AST (`RTok`, with a
  literal token and the `.` metacharacter) and an explicit search function;
  case-insensitivity is modelled by `Char.toLower` on both sides.  The
  `na=False` argument is inert in the app because `astype(str)` has already
  removed every NaN.
-/

/-- A pandas cell value: a string, missing (NaN), or a non-string value
represented by its Python `str()` rendering. -/
inductive Cell where
  | str (s : String)
  | na
  | other (repr : String)
deriving DecidableEq, Repr

/-- Model of `Series.astype(str)` applied to a single cell.  pandas renders a
missing cell (the float NaN) as the three-letter text "nan"; a string cell is
unchanged; any other value becomes its `str()` rendering. -/
def pyStr : Cell → String
  | Cell.str s => s
  | Cell.na => "nan"
  | Cell.other r => r

/-- A record table: an ordered column list and rows stored as association
lists from column name to cell value. -/
structure Table where
  cols : List String
  rows : List (List (String × Cell))
deriving DecidableEq, Repr

/-- Cell lookup in a row; a column absent from the row reads as missing,
matching pandas reindexing semantics. -/
def getCell (row : List (String × Cell)) (c : String) : Cell :=
  match row.find? (fun p => p.1 == c) with
  | some p => p.2
  | none => Cell.na

/-- Well-formedness of a table: every row carries exactly the table's columns,
in the table's column order. -/
def Table.Wf (t : Table) : Prop :=
  ∀ r ∈ t.rows, r.map Prod.fst = t.cols

instance (t : Table) : Decidable t.Wf := by
  unfold Table.Wf; infer_instance

/-- Model of Python `str.lower()`: lowercase every character.  Defined by a
structural map over the character list (extensionally the behaviour of
`String.toLower`). -/
def strLower (s : String) : String :=
  ⟨s.data.map Char.toLower⟩

/-- Model of Python `str.split(sep)` for a one-character separator, on the
character list: cut at every occurrence of the separator; n separators yield
n+1 pieces, and the empty text yields one empty piece. -/
def splitOnChar (sep : Char) : List Char → List (List Char)
  | [] => [[]]
  | c :: rest =>
    if c == sep then [] :: splitOnChar sep rest
    else
      match splitOnChar sep rest with
      | [] => [[c]]
      | piece :: pieces => (c :: piece) :: pieces

/-- Model of Python `str.strip()` on the character list: drop whitespace from
both ends. -/
def trimChars (cs : List Char) : List Char :=
  ((cs.dropWhile Char.isWhitespace).reverse.dropWhile Char.isWhitespace).reverse

/-- Model of Python `str.strip()`. -/
def pyStrip (s : String) : String :=
  ⟨trimChars s.data⟩

/-- Model of Python `keyword_text.split(",")`. -/
def pySplit (s : String) : List String :=
  (splitOnChar ',' s.data).map (fun cs => ⟨cs⟩)

/-- Translation of `detect_column` (src/app.py lines 19-24):

    cols_lower = [c.lower() for c in columns]
    for c in candidates:
        if c in cols_lower:
            return columns[cols_lower.index(c)]
    return None

`columns[cols_lower.index(c)]` is the first element of `columns` whose
lowercasing equals the candidate `c`, which is what `List.find?` returns.
Note the candidate `c` is compared verbatim: only the columns are
lowercased. -/
def detect_column (columns : List String) (candidates : List String) : Option String :=
  match candidates with
  | [] => none
  | c :: rest =>
    match columns.find? (fun col => strLower col == c) with
    | some col => some col
    | none => detect_column columns rest

/-- Token of the regex fragment reachable from the app: a literal character
(all that `re.escape` ever produces) or the `.` metacharacter (present in the
AST so that literal-matching of escaped patterns is a statement with
content). -/
inductive RTok where
  | lit (c : Char)
  | dot
deriving DecidableEq, Repr

/-- One token against one character, under `re.IGNORECASE` (modelled by
`Char.toLower` on both sides). -/
def tokMatch : RTok → Char → Bool
  | RTok.lit c, ch => c.toLower == ch.toLower
  | RTok.dot, _ => true

/-- Model of `re.escape k`: every character of the keyword becomes a literal
token (escaping strips all metacharacter meaning). -/
def re_escape (k : String) : List RTok :=
  k.data.map RTok.lit

/-- Whether a token list matches a prefix of the character list. -/
def matchesHere : List RTok → List Char → Bool
  | [], _ => true
  | _ :: _, [] => false
  | t :: ts, c :: cs => tokMatch t c && matchesHere ts cs

/-- Model of `re.search` for a single branch: the token list matches starting
at some position of the text. -/
def reSearchToks (toks : List RTok) : List Char → Bool
  | [] => matchesHere toks []
  | c :: cs => matchesHere toks (c :: cs) || reSearchToks toks cs

/-- Model of `re.search` for an alternation `b1|b2|...|bn`: some branch
matches starting at some position of the text. -/
def altSearch (branches : List (List RTok)) : List Char → Bool
  | [] => branches.any (fun b => matchesHere b [])
  | c :: cs => branches.any (fun b => matchesHere b (c :: cs)) || altSearch branches cs

/-- The alternation built at src/app.py line 134, `"|".join(re.escape(k) for k
in keywords)`: one escaped branch per keyword.  Joining an empty keyword list
yields the empty pattern, a single empty branch that `re.search` matches
everywhere; that input is unreachable behind the no-keywords guard at line
127 but the model keeps the faithful behaviour. -/
def anyPattern (ks : List String) : List (List RTok) :=
  match ks with
  | [] => [[]]
  | _ :: _ => ks.map re_escape

/-- Model of `descriptions.str.contains(pattern, case=False)` for the joined
ANY-mode pattern, on one cell text. -/
def containsAnyKw (ks : List String) (s : String) : Bool :=
  altSearch (anyPattern ks) s.data

/-- Model of `descriptions.str.contains(re.escape(k), case=False)` for a
single keyword, on one cell text. -/
def containsKw (k : String) (s : String) : Bool :=
  reSearchToks (re_escape k) s.data

/-- The two entries of the `match_mode` radio button. -/
inductive MatchMode where
  | anyKw
  | allKw
deriving DecidableEq, Repr

/-- Translation of the mask computation (src/app.py lines 131-139):

    descriptions = combined_df[desc_col].astype(str)
    if match_mode == "Any keyword (OR)":
        pattern = "|".join(re.escape(k) for k in keywords)
        mask = descriptions.str.contains(pattern, case=False, na=False)
    else:
        mask = pd.Series(True, index=combined_df.index)
        for k in keywords:
            mask &= descriptions.str.contains(re.escape(k), case=False, na=False)

The `na=False` arguments are inert: `astype(str)` has already turned every
NaN into the text "nan". -/
def filterMask (descCol : List Cell) (keywords : List String) (mode : MatchMode) :
    List Bool :=
  let descriptions := descCol.map pyStr
  match mode with
  | MatchMode.anyKw => descriptions.map (fun d => containsAnyKw keywords d)
  | MatchMode.allKw =>
      keywords.foldl
        (fun mask k => List.zipWith (fun b d => b && containsKw k d) mask descriptions)
        (descriptions.map (fun _ => true))

/-- Number of rows a boolean mask lets through. -/
def countTrue (mask : List Bool) : Nat :=
  mask.count true

/-- Translation of the keyword parse (src/app.py line 126):
`[k.strip() for k in keyword_text.split(",") if k.strip()]` — split on
commas, keep the pieces whose strip is non-empty (a non-empty string is
truthy), and strip the kept pieces. -/
def keywords (keywordText : String) : List String :=
  ((pySplit keywordText).filter (fun k => !(pyStrip k == ""))).map pyStrip

/-- The spec's phrasing of the keyword derivation: split on commas, trim each
piece, discard entries that are empty after trimming. -/
def specKeywords (keywordText : String) : List String :=
  ((pySplit keywordText).map pyStrip).filter (fun k => !(k == ""))

/-- Append a column name if it is not already present (order of first
appearance). -/
def insertCol (acc : List String) (c : String) : List String :=
  if c ∈ acc then acc else acc ++ [c]

/-- Ordered union of several column lists, in order of first appearance. -/
def orderedUnion (ls : List (List String)) : List String :=
  ls.foldl (fun acc cs => cs.foldl insertCol acc) []

/-- The spec's phrasing of "union of all input columns in order of first
appearance": concatenate and keep only the first occurrence of each name. -/
def dedupFirst : List String → List String
  | [] => []
  | c :: cs => c :: (dedupFirst cs).filter (fun x => decide (x ≠ c))

/-- Re-key a row to a given column list; columns the row lacks read as
missing via `getCell`. -/
def reindexRow (cols : List String) (r : List (String × Cell)) :
    List (String × Cell) :=
  cols.map (fun c => (c, getCell r c))

/-- Model of `pd.concat(dfs, ignore_index=True)` (src/app.py line 57) with
the pandas default `sort=False`: the result's columns are the union of the
inputs' columns in order of first appearance, the rows are the inputs' rows
concatenated in input order, and each row is reindexed to the union columns
with NaN filled in for the columns its source table lacks. -/
def pd_concat (ts : List Table) : Table :=
  let cols := orderedUnion (ts.map Table.cols)
  ⟨cols, (ts.map (fun t => t.rows.map (reindexRow cols))).flatten⟩

/-- Model of `combined_df.loc[mask, retain_cols].copy()` (src/app.py line
141): keep the rows where the boolean mask is true, in order, and re-key each
kept row to the retained columns in the given order.  pandas raises if the
mask length differs from the row count or a retained column is absent;
the model returns `none` there. -/
def project (t : Table) (mask : List Bool) (retain : List String) : Option Table :=
  if mask.length == t.rows.length && retain.all (fun c => t.cols.contains c) then
    some ⟨retain,
      ((t.rows.zip mask).filter (fun p => p.2)).map
        (fun p => retain.map (fun c => (c, getCell p.1 c)))⟩
  else none

/-- The column of cells `combined_df[descCol]` reads out of a table. -/
def colValues (t : Table) (descCol : String) : List Cell :=
  t.rows.map (fun r => getCell r descCol)

/-- Translation of the filter-button flow (src/app.py lines 121-141): the
empty-text guard (line 122), the no-valid-keywords guard (line 127), then
mask computation and projection.  `Except.error` models `st.warning` followed
by `st.stop()`: no mask, projection or export happens on that path. -/
def runFilter (combined : Table) (descCol : String) (keywordText : String)
    (mode : MatchMode) (retain : List String) : Except String Table :=
  if pyStrip keywordText == "" then
    Except.error "Please enter at least one keyword."
  else
    let ks := keywords keywordText
    if ks.isEmpty then
      Except.error "No valid keywords parsed."
    else
      let mask := filterMask (colValues combined descCol) ks mode
      match project combined mask retain with
      | some t => Except.ok t
      | none => Except.error "projection contract violated"

/-- The per-turn UI state the filter button sees: the combined table and the
last displayed filtered result. -/
structure Session where
  combined : Table
  filteredResult : Option Table
deriving DecidableEq, Repr

/-- One press of the "Filter Stories" button as a state transformer: the
combined table is read, never written; the filtered result is recomputed from
scratch. -/
def filterInvocation (st : Session) (descCol keywordText : String)
    (mode : MatchMode) (retain : List String) : Session :=
  ⟨st.combined, (runFilter st.combined descCol keywordText mode retain).toOption⟩

/-- Spec-side predicate: the keyword occurs, as a literal contiguous
character sequence compared case-insensitively, somewhere in the text. -/
def occursIn (p : List Char) : List Char → Bool
  | [] => List.isPrefixOf p []
  | c :: cs => List.isPrefixOf p (c :: cs) || occursIn p cs

/-- Case-insensitive literal substring containment on strings. -/
def containsLit (k s : String) : Bool :=
  occursIn (k.data.map Char.toLower) (s.data.map Char.toLower)

/-- A two-column sample table used as a concrete evaluation point. -/
def sampleT1 : Table :=
  ⟨["a", "b"], [[("a", Cell.str "1"), ("b", Cell.str "2")]]⟩

/-- A second sample table whose column set overlaps but differs. -/
def sampleT2 : Table :=
  ⟨["b", "c"], [[("b", Cell.str "3"), ("c", Cell.str "4")]]⟩

/-- A three-row user-story table used as a concrete evaluation point. -/
def sampleT3 : Table :=
  ⟨["id", "desc"],
   [[("id", Cell.str "US1"), ("desc", Cell.str "Add masking for PII")],
    [("id", Cell.str "US2"), ("desc", Cell.str "Improve login speed")],
    [("id", Cell.str "US3"), ("desc", Cell.str "Audit privacy and security logs")]]⟩

/-! ### Lemmas about the regex model -/

theorem matchesHere_escape (p : List Char) (cs : List Char) :
    matchesHere (p.map RTok.lit) cs
      = List.isPrefixOf (p.map Char.toLower) (cs.map Char.toLower) := by
  induction p generalizing cs with
  | nil => cases cs <;> simp [matchesHere, List.isPrefixOf]
  | cons a as ih =>
    cases cs with
    | nil => simp [matchesHere, List.isPrefixOf]
    | cons c cs2 => simp [matchesHere, List.isPrefixOf, tokMatch, ih]

theorem reSearchToks_escape (p : List Char) (cs : List Char) :
    reSearchToks (p.map RTok.lit) cs
      = occursIn (p.map Char.toLower) (cs.map Char.toLower) := by
  induction cs with
  | nil => simp [reSearchToks, occursIn, matchesHere_escape]
  | cons c cs2 ih => simp [reSearchToks, occursIn, matchesHere_escape, ih]

/-- The per-keyword search primitive of the code is exactly case-insensitive
literal substring containment. -/
theorem containsKw_eq_containsLit (k s : String) :
    containsKw k s = containsLit k s := by
  unfold containsKw containsLit re_escape
  exact reSearchToks_escape k.data s.data

theorem any_or_distrib {α : Type} (l : List α) (p q : α → Bool) :
    (l.any fun x => p x || q x) = (l.any p || l.any q) := by
  induction l with
  | nil => simp
  | cons a l ih => cases hp : p a <;> cases hq : q a <;> simp [hp, hq, ih]

/-- Searching an alternation is searching each branch. -/
theorem altSearch_any (bs : List (List RTok)) (cs : List Char) :
    altSearch bs cs = bs.any (fun b => reSearchToks b cs) := by
  induction cs with
  | nil => simp [altSearch, reSearchToks]
  | cons c cs2 ih =>
    simp only [altSearch, reSearchToks, ih]
    rw [any_or_distrib]

theorem any_map_general {α β : Type} (l : List α) (f : α → β) (p : β → Bool) :
    (l.map f).any p = l.any (fun x => p (f x)) := by
  induction l with
  | nil => rfl
  | cons a l ih => simp [List.any_cons, ih]

/-- For a non-empty keyword list, the joined ANY-mode pattern matches a text
iff some keyword's escaped pattern does. -/
theorem containsAnyKw_eq_any (ks : List String) (h : ks ≠ []) (s : String) :
    containsAnyKw ks s = ks.any (fun k => containsKw k s) := by
  match ks with
  | [] => exact absurd rfl h
  | k :: ks2 =>
    show altSearch ((k :: ks2).map re_escape) s.data = _
    rw [altSearch_any, any_map_general]
    rfl

/-! ### Lemmas about the ALL-mode accumulation loop -/

theorem zipWith_left_id (m : List Bool) (D : List String)
    (hm : m.length = D.length) :
    List.zipWith (fun b _ => b) m D = m := by
  induction m generalizing D with
  | nil => rfl
  | cons b m ih =>
    cases D with
    | nil => simp at hm
    | cons d D =>
      simp only [List.zipWith_cons_cons]
      rw [ih D (by simpa using hm)]

theorem zipWith_zipWith_right (f g : Bool → String → Bool)
    (m : List Bool) (D : List String) :
    List.zipWith g (List.zipWith f m D) D
      = List.zipWith (fun b d => g (f b d) d) m D := by
  induction m generalizing D with
  | nil => rfl
  | cons b m ih =>
    cases D with
    | nil => rfl
    | cons d D => simp only [List.zipWith_cons_cons]; rw [ih]

/-- Unrolling the `mask &= ...` loop: starting from any mask of the right
length, the loop conjoins the per-keyword containment of every keyword. -/
theorem foldl_mask_eq (D : List String) (ks : List String) (m : List Bool)
    (hm : m.length = D.length) :
    ks.foldl
        (fun mask k => List.zipWith (fun b d => b && containsKw k d) mask D) m
      = List.zipWith (fun b d => b && ks.all (fun k => containsKw k d)) m D := by
  induction ks generalizing m with
  | nil =>
    simp only [List.foldl_nil, List.all_nil, Bool.and_true]
    exact (zipWith_left_id m D hm).symm
  | cons k ks ih =>
    simp only [List.foldl_cons]
    rw [ih _ (by simp [hm]), zipWith_zipWith_right]
    simp only [List.all_cons, Bool.and_assoc]

theorem zipWith_true_left (P : String → Bool) (D : List String) :
    List.zipWith (fun b d => b && P d) (D.map (fun _ => true)) D = D.map P := by
  induction D with
  | nil => rfl
  | cons d D ih => simp only [List.map_cons, List.zipWith_cons_cons, ih, Bool.true_and]

/-- Normal form of the ALL-mode mask: one boolean per row, true iff every
keyword occurs in the row's text. -/
theorem filterMask_allKw (col : List Cell) (ks : List String) :
    filterMask col ks MatchMode.allKw
      = col.map (fun cell => ks.all (fun k => containsKw k (pyStr cell))) := by
  show ks.foldl _ ((col.map pyStr).map (fun _ => true)) = _
  rw [foldl_mask_eq (col.map pyStr) ks _ (by simp), zipWith_true_left]
  rw [List.map_map]
  rfl

/-- Normal form of the ANY-mode mask for a non-empty keyword list: one
boolean per row, true iff some keyword occurs in the row's text. -/
theorem filterMask_anyKw (col : List Cell) (ks : List String) (h : ks ≠ []) :
    filterMask col ks MatchMode.anyKw
      = col.map (fun cell => ks.any (fun k => containsKw k (pyStr cell))) := by
  show (col.map pyStr).map (fun d => containsAnyKw ks d) = _
  rw [List.map_map]
  exact List.map_congr_left (fun cell _ => containsAnyKw_eq_any ks h (pyStr cell))

/-- Pointwise implication between predicates gives an inequality of matched
row counts. -/
theorem countTrue_map_le {α : Type} (D : List α) (f g : α → Bool)
    (h : ∀ d ∈ D, f d = true → g d = true) :
    countTrue (D.map f) ≤ countTrue (D.map g) := by
  induction D with
  | nil => exact Nat.le_refl 0
  | cons d D ih =>
    have ih2 := ih (fun x hx => h x (List.mem_cons_of_mem d hx))
    have hd := h d (List.mem_cons_self d D)
    unfold countTrue at *
    simp only [List.map_cons, List.count_cons]
    cases hf : f d with
    | true => rw [hd hf]; omega
    | false => have : (decide (false = true) : Bool) = false := by decide
               cases hg : g d <;> simp <;> omega

/-! ### Claim theorems about the keyword mask -/

/-- Claim C1 (code bug): a missing description cell should receive a mask
value of false for every keyword, but `astype(str)` renders the missing cell
as the text "nan", so the keyword "nan" matches it in both modes.  The
`na=False` argument that was meant to force missing cells to false is inert
because no NaN survives `astype(str)`. -/
theorem missing_cell_matches_nan_keyword :
    pyStr Cell.na = "nan"
    ∧ filterMask [Cell.na] ["nan"] MatchMode.anyKw = [true]
    ∧ filterMask [Cell.na] ["nan"] MatchMode.allKw = [true] := by
  refine ⟨rfl, ?_, ?_⟩ <;> rfl

/-- Claim C3: in both match modes every keyword is matched as a literal,
case-insensitive substring of the cell's text — `containsLit` is plain
contiguous-substring containment, with no interpretation of regex
metacharacters such as the dot in "a.b". -/
theorem mask_is_literal_substring (col : List Cell) (ks : List String)
    (mode : MatchMode) (h : ks ≠ []) :
    filterMask col ks mode
      = col.map (fun cell =>
          match mode with
          | MatchMode.anyKw => ks.any (fun k => containsLit k (pyStr cell))
          | MatchMode.allKw => ks.all (fun k => containsLit k (pyStr cell))) := by
  cases mode with
  | anyKw => rw [filterMask_anyKw col ks h]; simp only [containsKw_eq_containsLit]
  | allKw => rw [filterMask_allKw]; simp only [containsKw_eq_containsLit]

/-- Witness for C3 at the spec's own example: the keyword "a.b" matches the
cell "xa.by" and does not match "aXb". -/
theorem mask_is_literal_substring_witness :
    (["a.b"] : List String) ≠ []
    ∧ filterMask [Cell.str "xa.by", Cell.str "aXb"] ["a.b"] MatchMode.anyKw
        = [Cell.str "xa.by", Cell.str "aXb"].map (fun cell =>
            match MatchMode.anyKw with
            | MatchMode.anyKw =>
                (["a.b"] : List String).any (fun k => containsLit k (pyStr cell))
            | MatchMode.allKw =>
                (["a.b"] : List String).all (fun k => containsLit k (pyStr cell))) :=
  ⟨by decide,
   mask_is_literal_substring [Cell.str "xa.by", Cell.str "aXb"] ["a.b"]
     MatchMode.anyKw (by decide)⟩

/-- Claim C5: appending a keyword never shrinks the ANY-mode matched-row
count and never grows the ALL-mode matched-row count.  The non-emptiness
hypothesis mirrors the code's no-keywords guard; with an empty keyword list
the joined ANY-mode pattern would be the match-everything empty pattern and
the inequality would fail. -/
theorem mask_monotonic (col : List Cell) (ks : List String) (k : String)
    (h : ks ≠ []) :
    countTrue (filterMask col ks MatchMode.anyKw)
        ≤ countTrue (filterMask col (ks ++ [k]) MatchMode.anyKw)
    ∧ countTrue (filterMask col (ks ++ [k]) MatchMode.allKw)
        ≤ countTrue (filterMask col ks MatchMode.allKw) := by
  have h2 : ks ++ [k] ≠ [] := by simp
  constructor
  · rw [filterMask_anyKw col ks h, filterMask_anyKw col (ks ++ [k]) h2]
    apply countTrue_map_le
    intro cell _ hc
    rw [List.any_append, hc, Bool.true_or]
  · rw [filterMask_allKw, filterMask_allKw]
    apply countTrue_map_le
    intro cell _ hc
    rw [List.all_append, Bool.and_eq_true] at hc
    exact hc.1

/-- Witness for C5 at a concrete table and keyword pair. -/
theorem mask_monotonic_witness :
    (["a"] : List String) ≠ []
    ∧ (countTrue (filterMask [Cell.str "ab"] ["a"] MatchMode.anyKw)
          ≤ countTrue (filterMask [Cell.str "ab"] (["a"] ++ ["b"]) MatchMode.anyKw)
      ∧ countTrue (filterMask [Cell.str "ab"] (["a"] ++ ["b"]) MatchMode.allKw)
          ≤ countTrue (filterMask [Cell.str "ab"] ["a"] MatchMode.allKw)) :=
  ⟨by decide, mask_monotonic [Cell.str "ab"] ["a"] "b" (by decide)⟩

/-- Claim C10: on a single keyword the ANY-mode mask (single-branch
alternation) and the ALL-mode mask (one pass of the conjunction loop)
coincide. -/
theorem singleton_any_eq_all (col : List Cell) (k : String) :
    filterMask col [k] MatchMode.anyKw = filterMask col [k] MatchMode.allKw := by
  rw [filterMask_anyKw col [k] (by simp), filterMask_allKw]
  simp

/-! ### Claim theorems about column detection -/

/-- Claim C2 (counterexample): the candidate "DESC" and the column "desc"
match case-insensitively, yet `detect_column` finds nothing, because the code
lowercases only the columns and compares the candidate verbatim. -/
theorem detect_column_not_case_insensitive :
    strLower "DESC" = strLower "desc"
    ∧ detect_column ["desc"] ["DESC"] = none := by
  constructor
  · decide
  · decide

/-- Claim C2 as amended: `detect_column C A` returns a column (always one of
`C`) exactly when some candidate, taken verbatim, equals the lowercasing of
some column; the comparison is case-insensitive in the columns argument
only. -/
theorem detect_column_found_iff (C A : List String) :
    ((detect_column C A).isSome = true ↔ ∃ a ∈ A, ∃ c ∈ C, strLower c = a)
    ∧ (detect_column C A).all (fun x => C.contains x) = true := by
  induction A with
  | nil => simp [detect_column, Option.all]
  | cons a A ih =>
    unfold detect_column
    cases hfind : C.find? (fun col => strLower col == a) with
    | some col =>
      have hmem : col ∈ C := List.mem_of_find?_eq_some hfind
      have hlow : strLower col = a := by
        have := List.find?_some hfind
        exact eq_of_beq this
      constructor
      · simp only [Option.isSome_some, true_iff]
        exact ⟨a, List.mem_cons_self a A, col, hmem, hlow⟩
      · simpa [Option.all] using hmem
    | none =>
      have hno : ∀ c ∈ C, strLower c ≠ a := by
        intro c hc
        have := List.find?_eq_none.mp hfind c hc
        simpa using this
      constructor
      · rw [ih.1]
        constructor
        · rintro ⟨a2, ha2, c, hc, hlow⟩
          exact ⟨a2, List.mem_cons_of_mem a ha2, c, hc, hlow⟩
        · rintro ⟨a2, ha2, c, hc, hlow⟩
          rcases List.mem_cons.mp ha2 with rfl | ha2
          · exact absurd hlow (hno c hc)
          · exact ⟨a2, ha2, c, hc, hlow⟩
      · exact ih.2

/-- Claim C6 (counterexample): the earliest candidate "DESC" has a
case-insensitive match with the column "desc", so the claim demands that
column; the code skips "DESC" (it is compared verbatim against the lowercased
columns) and the later candidate "id" wins, returning "ID". -/
theorem detect_column_priority_counterexample :
    strLower "DESC" = strLower "desc"
    ∧ detect_column ["ID", "desc"] ["DESC", "id"] = some "ID"
    ∧ ("ID" : String) ≠ "desc" := by
  refine ⟨by decide, by decide, by decide⟩

/-- Claim C6 as amended: among the candidates, the earliest one that occurs
verbatim among the lowercased columns wins, regardless of where its column
sits in the column list; the result is the first column (in column order)
whose lowercasing equals that candidate, carrying the column's original
casing. -/
theorem detect_column_first_candidate (C A1 A2 : List String) (a : String)
    (h1 : ∀ a' ∈ A1, ∀ c ∈ C, strLower c ≠ a')
    (h2 : ∃ c ∈ C, strLower c = a) :
    detect_column C (A1 ++ a :: A2) = C.find? (fun c => strLower c == a) := by
  induction A1 with
  | nil =>
    simp only [List.nil_append]
    unfold detect_column
    cases hfind : C.find? (fun c => strLower c == a) with
    | some col => rfl
    | none =>
      exfalso
      obtain ⟨c, hc, hlow⟩ := h2
      have := List.find?_eq_none.mp hfind c hc
      simp [hlow] at this
  | cons a1 A1 ih =>
    simp only [List.cons_append]
    unfold detect_column
    have hnone : C.find? (fun c => strLower c == a1) = none := by
      apply List.find?_eq_none.mpr
      intro c hc
      simpa using h1 a1 (List.mem_cons_self a1 A1) c hc
    rw [hnone]
    exact ih (fun x hx c hc => h1 x (List.mem_cons_of_mem a1 hx) c hc)

/-- Witness for the amended C6: the candidate "id" beats the later candidate
"story id" and selects the column "ID" even though "Desc" sits earlier in the
column list. -/
theorem detect_column_first_candidate_witness :
    (∀ a1 ∈ (["user story id"] : List String),
        ∀ c ∈ (["Desc", "ID"] : List String), strLower c ≠ a1)
    ∧ (∃ c ∈ (["Desc", "ID"] : List String), strLower c = "id")
    ∧ detect_column ["Desc", "ID"] (["user story id"] ++ "id" :: ["story id"])
        = List.find? (fun c => strLower c == "id") ["Desc", "ID"] :=
  ⟨by decide, by decide,
   detect_column_first_candidate ["Desc", "ID"] ["user story id"] ["story id"] "id"
     (by decide) (by decide)⟩

/-! ### Lemmas about table combination -/

theorem getCell_of_not_key (r : List (String × Cell)) (c : String)
    (h : ∀ p ∈ r, p.1 ≠ c) : getCell r c = Cell.na := by
  unfold getCell
  have hnone : r.find? (fun p => p.1 == c) = none :=
    List.find?_eq_none.mpr (fun p hp => by simpa using h p hp)
  rw [hnone]

theorem getCell_map_pair (cols : List String) (g : String → Cell) (c : String) :
    getCell (cols.map (fun x => (x, g x))) c = if c ∈ cols then g c else Cell.na := by
  unfold getCell
  rw [List.find?_map]
  have hcomp : ((fun p : String × Cell => p.1 == c) ∘ fun x => (x, g x))
      = fun x => x == c := rfl
  rw [hcomp]
  cases hfind : cols.find? (fun x => x == c) with
  | some x =>
    have hx : x = c := by
      have h2 := List.find?_some hfind
      simpa using h2
    have hmem : c ∈ cols := hx ▸ List.mem_of_find?_eq_some hfind
    subst hx
    simp [hmem]
  | none =>
    have hnotmem : c ∉ cols := by
      intro hc2
      have := List.find?_eq_none.mp hfind c hc2
      simp at this
    simp [hnotmem]

theorem getCell_reindexRow (cols : List String) (r : List (String × Cell))
    (c : String) :
    getCell (reindexRow cols r) c = if c ∈ cols then getCell r c else Cell.na :=
  getCell_map_pair cols (fun x => getCell r x) c

theorem foldl_insertCol (cs : List String) (acc : List String) :
    cs.foldl insertCol acc
      = acc ++ (dedupFirst cs).filter (fun c => decide (c ∉ acc)) := by
  induction cs generalizing acc with
  | nil => simp [dedupFirst]
  | cons c cs ih =>
    simp only [List.foldl_cons, dedupFirst]
    by_cases hc : c ∈ acc
    · rw [show insertCol acc c = acc from by simp [insertCol, hc]]
      rw [ih]
      rw [List.filter_cons_of_neg (by simp [hc])]
      rw [List.filter_filter]
      congr 1
      apply List.filter_congr
      intro x hx
      by_cases hxc : x = c
      · subst hxc; simp [hc]
      · simp [hxc]
    · rw [show insertCol acc c = acc ++ [c] from by simp [insertCol, hc]]
      rw [ih]
      rw [List.filter_cons_of_pos (by simp [hc])]
      rw [List.filter_filter, List.append_assoc, List.singleton_append]
      have hfeq : List.filter (fun x => decide (x ∉ acc ++ [c])) (dedupFirst cs)
          = List.filter (fun x => decide (x ∉ acc) && decide (x ≠ c)) (dedupFirst cs) := by
        apply List.filter_congr
        intro x hx
        by_cases hxc : x = c
        · subst hxc; simp
        · simp [hxc, List.mem_append]
      rw [hfeq]

/-- The code-side ordered union of the column lists is the spec-side
first-occurrence deduplication of their concatenation. -/
theorem orderedUnion_eq_dedupFirst (ls : List (List String)) :
    orderedUnion ls = dedupFirst ls.flatten := by
  unfold orderedUnion
  rw [← List.foldl_flatten insertCol [] ls, foldl_insertCol]
  simp

/-- Claim C4: combining tables yields the summed row count, the
first-appearance union of the column lists, the input rows concatenated in
input order (each re-keyed to the union columns), and a missing value in
every union column the row's source table lacks. -/
theorem pd_concat_spec (ts : List Table) (_hne : ts ≠ [])
    (hwf : ∀ t ∈ ts, t.Wf) :
    (pd_concat ts).rows.length = (ts.map (fun t => t.rows.length)).sum
    ∧ (pd_concat ts).cols = dedupFirst (ts.map Table.cols).flatten
    ∧ (pd_concat ts).rows
        = ((ts.map Table.rows).flatten).map (reindexRow (pd_concat ts).cols)
    ∧ ∀ t ∈ ts, ∀ r ∈ t.rows, ∀ c, c ∉ t.cols →
        getCell (reindexRow (pd_concat ts).cols r) c = Cell.na := by
  refine ⟨?_, ?_, ?_, ?_⟩
  · show ((ts.map (fun t =>
        t.rows.map (reindexRow (orderedUnion (ts.map Table.cols))))).flatten).length = _
    rw [List.length_flatten, List.map_map]
    congr 1
    apply List.map_congr_left
    intro t _
    simp
  · show orderedUnion (ts.map Table.cols) = _
    exact orderedUnion_eq_dedupFirst _
  · show (ts.map (fun t =>
        t.rows.map (reindexRow (orderedUnion (ts.map Table.cols))))).flatten = _
    rw [List.map_flatten, List.map_map]
    rfl
  · intro t ht r hr c hc
    rw [getCell_reindexRow]
    by_cases hmem : c ∈ (pd_concat ts).cols
    · rw [if_pos hmem]
      apply getCell_of_not_key
      intro p hp hpc
      have hkey : p.1 ∈ t.cols := by
        rw [← hwf t ht r hr]
        exact List.mem_map_of_mem Prod.fst hp
      exact hc (hpc ▸ hkey)
    · rw [if_neg hmem]

/-- Witness for C4 on two overlapping-schema sample tables. -/
theorem pd_concat_spec_witness :
    ([sampleT1, sampleT2] : List Table) ≠ []
    ∧ (∀ t ∈ [sampleT1, sampleT2], t.Wf)
    ∧ ((pd_concat [sampleT1, sampleT2]).rows.length
          = ([sampleT1, sampleT2].map (fun t => t.rows.length)).sum
      ∧ (pd_concat [sampleT1, sampleT2]).cols
          = dedupFirst ([sampleT1, sampleT2].map Table.cols).flatten
      ∧ (pd_concat [sampleT1, sampleT2]).rows
          = (([sampleT1, sampleT2].map Table.rows).flatten).map
              (reindexRow (pd_concat [sampleT1, sampleT2]).cols)
      ∧ ∀ t ∈ [sampleT1, sampleT2], ∀ r ∈ t.rows, ∀ c, c ∉ t.cols →
          getCell (reindexRow (pd_concat [sampleT1, sampleT2]).cols r) c = Cell.na) :=
  ⟨by decide, by decide, pd_concat_spec [sampleT1, sampleT2] (by decide) (by decide)⟩

/-! ### Lemmas about projection -/

theorem zip_filter_eq_range {α : Type} (dflt : α) (rows : List α)
    (mask : List Bool) (h : mask.length = rows.length) :
    ((rows.zip mask).filter (fun p => p.2)).map Prod.fst
      = ((List.range rows.length).filter (fun i => mask.getD i false)).map
          (fun i => rows.getD i dflt) := by
  induction rows generalizing mask with
  | nil =>
    cases mask with
    | nil => rfl
    | cons b m => simp at h
  | cons r rows ih =>
    cases mask with
    | nil => simp at h
    | cons b m =>
      have h2 : m.length = rows.length := by simpa using h
      simp only [List.zip_cons_cons, List.length_cons, List.range_succ_eq_map]
      have hfe : ((fun i => (b :: m).getD i false) ∘ Nat.succ)
          = (fun i => m.getD i false) := by
        funext i; rfl
      have hme : ((fun i => (r :: rows).getD i dflt) ∘ Nat.succ)
          = (fun i => rows.getD i dflt) := by
        funext i; rfl
      cases b with
      | true =>
        rw [List.filter_cons_of_pos (by rfl), List.filter_cons_of_pos (by simp)]
        simp only [List.map_cons]
        congr 1
        rw [List.filter_map, List.map_map, hfe, hme]
        exact ih m h2
      | false =>
        rw [List.filter_cons_of_neg (by simp), List.filter_cons_of_neg (by simp)]
        rw [List.filter_map, List.map_map, hfe, hme]
        exact ih m h2

/-- Claim C7: with a mask of matching length and a non-empty retained-column
list drawn from the table's columns, the projection succeeds and outputs
exactly the rows at the mask's true indices, in increasing index order, each
row carrying the retained columns in the given order. -/
theorem project_spec (t : Table) (mask : List Bool) (retain : List String)
    (hlen : mask.length = t.rows.length) (_hne : retain ≠ [])
    (hsub : ∀ c ∈ retain, c ∈ t.cols) :
    project t mask retain
      = some ⟨retain,
          ((List.range t.rows.length).filter (fun i => mask.getD i false)).map
            (fun i => retain.map (fun c => (c, getCell (t.rows.getD i []) c)))⟩ := by
  unfold project
  have hguard : (mask.length == t.rows.length
      && retain.all (fun c => t.cols.contains c)) = true := by
    rw [Bool.and_eq_true]
    constructor
    · exact beq_iff_eq.mpr hlen
    · rw [List.all_eq_true]
      intro c hc
      simpa using hsub c hc
  rw [if_pos hguard]
  have base := zip_filter_eq_range ([] : List (String × Cell)) t.rows mask hlen
  have hrows : ((t.rows.zip mask).filter (fun p => p.2)).map
        (fun p => retain.map (fun c => (c, getCell p.1 c)))
      = ((List.range t.rows.length).filter (fun i => mask.getD i false)).map
          (fun i => retain.map (fun c => (c, getCell (t.rows.getD i []) c))) := by
    calc ((t.rows.zip mask).filter (fun p => p.2)).map
            (fun p => retain.map (fun c => (c, getCell p.1 c)))
        = (((t.rows.zip mask).filter (fun p => p.2)).map Prod.fst).map
            (fun r => retain.map (fun c => (c, getCell r c))) := by
          rw [List.map_map]; rfl
      _ = (((List.range t.rows.length).filter (fun i => mask.getD i false)).map
            (fun i => t.rows.getD i [])).map
            (fun r => retain.map (fun c => (c, getCell r c))) := by rw [base]
      _ = ((List.range t.rows.length).filter (fun i => mask.getD i false)).map
            (fun i => retain.map (fun c => (c, getCell (t.rows.getD i []) c))) := by
          rw [List.map_map]; rfl
  rw [hrows]

/-- Witness for C7: keep only the "id" column of the rows selected by a
concrete mask. -/
theorem project_spec_witness :
    ([true, false, true] : List Bool).length = sampleT3.rows.length
    ∧ (["id"] : List String) ≠ []
    ∧ (∀ c ∈ (["id"] : List String), c ∈ sampleT3.cols)
    ∧ project sampleT3 [true, false, true] ["id"]
        = some ⟨["id"],
            ((List.range sampleT3.rows.length).filter
              (fun i => ([true, false, true] : List Bool).getD i false)).map
              (fun i => ["id"].map (fun c => (c, getCell (sampleT3.rows.getD i []) c)))⟩ :=
  ⟨by decide, by decide, by decide,
   project_spec sampleT3 [true, false, true] ["id"] (by decide) (by decide) (by decide)⟩

/-! ### Claim theorems about keyword parsing and the filter pipeline -/

/-- Claim C8: the keyword list is the comma-split, trimmed, empties-discarded
derivation the spec describes, and when it is empty the filter pipeline stops
with a warning before computing any mask, projection or export. -/
theorem keywords_spec (s : String) :
    keywords s = specKeywords s
    ∧ (keywords s = [] →
        ∀ (combined : Table) (dcol : String) (mode : MatchMode)
          (retain : List String),
          ∃ msg, runFilter combined dcol s mode retain = Except.error msg) := by
  constructor
  · unfold keywords specKeywords
    rw [List.filter_map]
    rfl
  · intro hk combined dcol mode retain
    unfold runFilter
    by_cases hs : (pyStrip s == "") = true
    · rw [if_pos hs]
      exact ⟨"Please enter at least one keyword.", rfl⟩
    · rw [if_neg hs]
      simp only [hk]
      exact ⟨"No valid keywords parsed.", rfl⟩

/-- Witness for C8: the text " , ," parses to zero keywords and the pipeline
reports an error instead of a table. -/
theorem keywords_spec_witness :
    keywords " , ," = []
    ∧ ∃ msg, runFilter sampleT3 "desc" " , ," MatchMode.anyKw ["id"]
        = Except.error msg :=
  ⟨by decide,
   (keywords_spec " , ,").2 (by decide) sampleT3 "desc" MatchMode.anyKw ["id"]⟩

/-- Claim C9: a filter invocation never writes the combined table, and the
filtered result is recomputed from the combined table and the run's inputs
alone — the previously displayed result does not influence it. -/
theorem filterInvocation_frame (st : Session) (dcol ktext : String)
    (mode : MatchMode) (retain : List String) :
    (filterInvocation st dcol ktext mode retain).combined = st.combined
    ∧ ∀ prev : Option Table,
        (filterInvocation ⟨st.combined, prev⟩ dcol ktext mode retain).filteredResult
          = (runFilter st.combined dcol ktext mode retain).toOption :=
  ⟨rfl, fun _ => rfl⟩
